import Mathlib

/-!
Verification of the darkweb-leak-finder ingestion/normalization/reconciliation
core against its natural-language specification.

The Lean definitions below are a shallow embedding of the Python source:

* `src/breaches/services/hibp.py` — the HIBP breach client
  (`_date_yyyy_mm_dd`, `HibpClient._normalize_breach`,
  `HibpClient.breaches_for_account`);
* `src/breaches/views.py` — the reconciliation layer
  (`_safe_date`, the per-record upsert loop of `scan_identity`,
  and the host upsert of `scan_target`);
* `src/security_ticker/services/sources.py` — `fetch_kev_items`.

Modelling conventions:

* A Python value read with `dict.get(k)` is an `Option`; `none` stands for
  "key absent or value `None`".
* Python truthiness on strings ("" is falsy) and lists ([] is falsy) is made
  explicit with the `pyOr*` helpers below; `a or b` on strings is
  `pyOrS a b`, on optional values `pyOrOS a b`.
* `str.strip()` is modelled by `pyStrip` (ASCII whitespace), and the
  `\d` of the date regex by `Char.isDigit` (ASCII digits); upstream date
  fields are ASCII timestamps, so nothing in the claims depends on the
  difference.
* Database state is the list of rows belonging to the one identity being
  scanned (the code only ever queries `filter(identity=identity)`); rows of
  other identities are untouched by a pass.  Django's `update_or_create` is
  `updateOrCreate` below: look up by key, overwrite the defaults in place if
  found, append otherwise.  (Django raises on multiple matches; every
  theorem that updates works under the key-uniqueness invariant, where the
  two semantics agree.)
-/

/-- Python `str.strip()` at the character level: drop leading whitespace. -/
def dropWhileWs (l : List Char) : List Char := l.dropWhile Char.isWhitespace

/-- Python `str.strip()`: remove leading and trailing whitespace.  (Lean's
`Char.isWhitespace` covers space, tab, CR, LF — the whitespace that occurs
in the upstream payloads.) -/
def pyStrip (s : String) : String :=
  ⟨((dropWhileWs s.data).reverse.dropWhile Char.isWhitespace).reverse⟩

/-- Python slicing `s[:n]` (by code points). -/
def pyTake (s : String) (n : Nat) : String := ⟨s.data.take n⟩

/-- Python `len(s)` (code points). -/
def pyLen (s : String) : Nat := s.data.length

/-- Python `a or b` for strings: `a` if non-empty (truthy), else `b`. -/
def pyOrS (a b : String) : String := if a = "" then b else a

/-- Python `a or b` where `a` is an optional string and the result keeps
`b` as-is when `a` is falsy (`None` or `""`). -/
def pyOrOS (a b : Option String) : Option String :=
  match a with
  | some s => if s = "" then b else some s
  | none => b

/-- Python `a or d` where `a` is an optional string and `d` a default
string (used inside f-strings: `breach_dt or 'na'`). -/
def pyOrD (a : Option String) (d : String) : String :=
  match a with
  | some s => pyOrS s d
  | none => d

/-- Python `x.get(k1) or x.get(k2) or ""`: first truthy of the two
values, else the empty string. -/
def getStr2 (a b : Option String) : String := pyOrS (a.getD "") (b.getD "")

/-- Python `a or b` where `a` is an optional list and `b` the fallback
(an empty list is falsy). -/
def pyOrL {α : Type} (a : Option (List α)) (b : List α) : List α :=
  match a with
  | some [] => b
  | some (x :: xs) => x :: xs
  | none => b

/-- Python `bool(x)` for an optional boolean (absent/`None` coerces to
`False`). -/
def pyBool (o : Option Bool) : Bool := o.getD false

/-- Python `x.get(k1, x.get(k2, False))` then `bool(...)` — the two-level
`dict.get` with default used for the risk flags in `scan_identity`. -/
def flagOf (a b : Option Bool) : Bool :=
  match a with
  | some v => v
  | none => b.getD false

/-- `^\d{4}-\d{2}-\d{2}$` of `hibp._DATE_RE`: exactly ten characters,
digits with dashes at positions 4 and 7. -/
def isDateYMD (s : String) : Bool :=
  match s.data with
  | [y1, y2, y3, y4, h1, m1, m2, h2, d1, d2] =>
      y1.isDigit && y2.isDigit && y3.isDigit && y4.isDigit &&
      h1 == '-' && m1.isDigit && m2.isDigit && h2 == '-' &&
      d1.isDigit && d2.isDigit
  | _ => false

/-- `hibp._date_yyyy_mm_dd`: normalize a date-like value to
`YYYY-MM-DD` or `None`.  Truncates to the first ten characters when at
least that long, then validates against `_DATE_RE`. -/
def dateYyyyMmDd (value : Option String) : Option String :=
  match value with
  | none => none
  | some v =>
    let s := pyStrip v
    let s := if pyLen s ≥ 10 then pyTake s 10 else s
    if isDateYMD s then some s else none

/-- `views._safe_date`: return a ten-character date-shaped string or
`None` (never the empty string).  Only "very light validation": length
ten with dashes at positions 4 and 7; digits are not checked. -/
def safeDate (v : Option String) : Option String :=
  match v with
  | none => none
  | some v0 =>
    let s := pyStrip v0
    if s = "" then none
    else
      let s1 := pyTake s 10
      if pyLen s1 = 10 ∧ s1.data.getD 4 ' ' = '-' ∧ s1.data.getD 7 ' ' = '-' then
        some s1
      else none

/-- Python `s.split(",")` at the character level. -/
def splitCommaAux : List Char → List Char → List String
  | [], acc => [⟨acc.reverse⟩]
  | c :: rest, acc =>
      if c = ',' then ⟨acc.reverse⟩ :: splitCommaAux rest []
      else splitCommaAux rest (c :: acc)

/-- Python `s.split(",")`. -/
def pySplitComma (s : String) : List String := splitCommaAux s.data []

/-- The value found under `"DataClasses"` in a raw HIBP record: a native
list (elements already strings after Python's `str(x)`), a plain string,
or anything else (including absent/`None`). -/
inductive DCField where
  | listV (xs : List String)
  | strV (s : String)
  | otherV
deriving DecidableEq, Repr

/-- The `DataClasses` normalization of `HibpClient._normalize_breach`:
a list maps to its trimmed non-empty elements, a string is split on
commas (trimmed, empties removed), anything else becomes `[]`. -/
def normDataClasses (dc : DCField) : List String :=
  match dc with
  | .listV xs => (xs.map pyStrip).filter (· ≠ "")
  | .strV s => ((pySplitComma s).map pyStrip).filter (· ≠ "")
  | .otherV => []

/-- A raw HIBP breach object as consumed by `_normalize_breach`.  Each
`Option` field is the result of `b.get("Key")` (`none` = absent/`None`).
`IsFabricated` is the genuine upstream field; `IsFabricricated` is the
misspelled key the source actually reads (`hibp.py` line 337) — it is
absent (`none`) in every genuine HIBP payload. -/
structure RawBreach where
  Name : Option String := none
  Title : Option String := none
  Domain : Option String := none
  BreachDate : Option String := none
  AddedDate : Option String := none
  ModifiedDate : Option String := none
  PwnCount : Option Int := none
  DataClasses : DCField := .otherV
  Description : Option String := none
  IsVerified : Option Bool := none
  IsSensitive : Option Bool := none
  IsFabricated : Option Bool := none
  IsFabricricated : Option Bool := none
  IsSpamList : Option Bool := none
  IsRetired : Option Bool := none
  IsMalware : Option Bool := none
  IsStealerLog : Option Bool := none
  IsSubscriptionFree : Option Bool := none
deriving DecidableEq, Repr

/-- The normalized breach dict returned by `_normalize_breach` /
`breaches_for_account` (the documented client schema). -/
structure NormBreach where
  breach_name : String
  title : String
  domain : String
  breach_date : Option String
  occurred_on : Option String
  added_on : Option String
  modified_on : Option String
  pwn_count : Int
  data_classes : List String
  description : String
  is_verified : Bool
  is_sensitive : Bool
  is_fabricated : Bool
  is_spam_list : Bool
  is_retired : Bool
  is_malware : Bool
  is_stealer_log : Bool
  is_subscription_free : Bool
deriving DecidableEq, Repr

/-- `HibpClient._normalize_breach`: map a raw HIBP record to the
normalized schema, or `none` (record dropped) when `Name` is
missing/blank. -/
def normalizeBreach (b : RawBreach) : Option NormBreach :=
  let name := pyStrip (b.Name.getD "")
  if name = "" then none
  else some {
    breach_name := name
    title := pyOrS (pyStrip (b.Title.getD "")) name
    domain := pyStrip (b.Domain.getD "")
    breach_date := dateYyyyMmDd b.BreachDate
    occurred_on := dateYyyyMmDd b.BreachDate
    added_on := dateYyyyMmDd b.AddedDate
    modified_on := dateYyyyMmDd b.ModifiedDate
    pwn_count := b.PwnCount.getD 0
    data_classes := normDataClasses b.DataClasses
    description := pyStrip (b.Description.getD "")
    is_verified := pyBool b.IsVerified
    is_sensitive := pyBool b.IsSensitive
    is_fabricated := pyBool b.IsFabricricated
    is_spam_list := pyBool b.IsSpamList
    is_retired := pyBool b.IsRetired
    is_malware := pyBool b.IsMalware
    is_stealer_log := pyBool b.IsStealerLog
    is_subscription_free := pyBool b.IsSubscriptionFree
  }

/-- Lowercased prefix test `ct.lower().startswith("application/json")`
used by `breaches_for_account` before parsing the body. -/
def startsWithChars : List Char → List Char → Bool
  | [], _ => true
  | _ :: _, [] => false
  | a :: as, b :: bs => a == b && startsWithChars as bs

/-- `str(ct or "").lower().startswith("application/json")`. -/
def ctIsJson (ct : String) : Bool :=
  startsWithChars "application/json".data (ct.data.map Char.toLower)

/-- The parsed shape of the HTTP response body seen by
`breaches_for_account` after the status and content-type checks. -/
inductive HibpBody where
  | invalidJson
  | jsonNonList
  | jsonList (xs : List RawBreach)
deriving Repr

/-- An HTTP response from the HIBP `breachedaccount` endpoint. -/
structure HibpResponse where
  status : Nat
  contentType : String
  body : HibpBody

/-- The observable outcome of `HibpClient.breaches_for_account`: a list
of normalized records, or one of the typed/raised errors. -/
inductive HibpOutcome where
  | items (xs : List NormBreach)
  | authError
  | rateLimitError
  | httpStatusError (status : Nat)
  | jsonDecodeError
deriving DecidableEq, Repr

/-- `HibpClient.breaches_for_account`, given the configured API key
(`self.key`, already stripped in `__init__`) and the upstream response.
Mirrors the source order: demo mode on empty key, 404 → `[]`,
401 → `HibpAuthError`, 429 → `HibpRateLimitError`,
`raise_for_status` for the remaining 4xx/5xx, non-JSON content type →
`[]`, non-list JSON → `[]`, then per-record normalization that drops
nameless records.  The client performs no retry on any path. -/
def breachesForAccount (key : String) (resp : HibpResponse) : HibpOutcome :=
  if key = "" then .items []
  else if resp.status = 404 then .items []
  else if resp.status = 401 then .authError
  else if resp.status = 429 then .rateLimitError
  else if 400 ≤ resp.status ∧ resp.status < 600 then .httpStatusError resp.status
  else if ¬ ctIsJson resp.contentType then .items []
  else match resp.body with
    | .invalidJson => .jsonDecodeError
    | .jsonNonList => .items []
    | .jsonList xs => .items (xs.filterMap normalizeBreach)

/-- One element of the `results` list consumed by `scan_identity`.  The
loop tolerates both the client's normalized keys (lowercase) and raw
HIBP keys (capitalized); each field is the value of `item.get(...)` for
the corresponding key (`none` = absent). -/
structure BreachItem where
  breach_name : Option String := none
  Name : Option String := none
  title : Option String := none
  Title : Option String := none
  domain : Option String := none
  Domain : Option String := none
  occurred_on : Option String := none
  BreachDate : Option String := none
  added_on : Option String := none
  AddedDate : Option String := none
  modified_on : Option String := none
  ModifiedDate : Option String := none
  description : Option String := none
  Description : Option String := none
  pwn_count : Option Int := none
  PwnCount : Option Int := none
  data_classes : Option (List String) := none
  DataClasses : Option (List String) := none
  is_verified : Option Bool := none
  IsVerified : Option Bool := none
  is_sensitive : Option Bool := none
  IsSensitive : Option Bool := none
  is_fabricated : Option Bool := none
  IsFabricated : Option Bool := none
  is_spam_list : Option Bool := none
  IsSpamList : Option Bool := none
  is_retired : Option Bool := none
  IsRetired : Option Bool := none
  is_malware : Option Bool := none
  IsMalware : Option Bool := none
  is_stealer_log : Option Bool := none
  IsStealerLog : Option Bool := none
  is_subscription_free : Option Bool := none
  IsSubscriptionFree : Option Bool := none
deriving DecidableEq, Repr

/-- `raw_name = (item.get("breach_name") or item.get("Name") or "").strip()`. -/
def rawNameOf (it : BreachItem) : String := pyStrip (getStr2 it.breach_name it.Name)

/-- `title = (item.get("title") or item.get("Title") or "").strip()`. -/
def titleOf (it : BreachItem) : String := pyStrip (getStr2 it.title it.Title)

/-- `domain = (item.get("domain") or item.get("Domain") or "").strip()`. -/
def domainOf (it : BreachItem) : String := pyStrip (getStr2 it.domain it.Domain)

/-- `breach_dt = _safe_date(item.get("occurred_on") or item.get("BreachDate"))`. -/
def breachDtOf (it : BreachItem) : Option String :=
  safeDate (pyOrOS it.occurred_on it.BreachDate)

/-- `added_dt = _safe_date(item.get("added_on") or item.get("AddedDate"))`. -/
def addedDtOf (it : BreachItem) : Option String :=
  safeDate (pyOrOS it.added_on it.AddedDate)

/-- `mod_dt = _safe_date(item.get("modified_on") or item.get("ModifiedDate"))`. -/
def modDtOf (it : BreachItem) : Option String :=
  safeDate (pyOrOS it.modified_on it.ModifiedDate)

/-- The synthetic fallback key
`f"unknown-{breach_dt or 'na'}-{added_dt or 'na'}"`. -/
def synthKeyOf (it : BreachItem) : String :=
  "unknown-" ++ pyOrD (breachDtOf it) "na" ++ "-" ++ pyOrD (addedDtOf it) "na"

/-- The name-resolution chain of `scan_identity`:
`raw_name or title or domain or f"unknown-..." or "Unknown"`. -/
def resolveName (it : BreachItem) : String :=
  pyOrS (rawNameOf it)
    (pyOrS (titleOf it) (pyOrS (domainOf it) (pyOrS (synthKeyOf it) "Unknown")))

/-- The name-resolution chain with the final `or "Unknown"` arm removed;
used to show that the literal `"Unknown"` fallback is dead code. -/
def resolveNameNoUnknown (it : BreachItem) : String :=
  pyOrS (rawNameOf it) (pyOrS (titleOf it) (pyOrS (domainOf it) (synthKeyOf it)))

/-- `if defaults[k] == "": defaults[k] = None` — the belt-and-suspenders
pass over the three date fields before the write. -/
def blankToNone (o : Option String) : Option String :=
  if o = some "" then none else o

/-- The `defaults` dict built by `scan_identity` for one record — i.e.
the mutable (non-key) columns of a `BreachHit` row. -/
structure RowData where
  domain : String
  occurred_on : Option String
  title : String
  description : String
  pwn_count : Option Int
  data_classes : List String
  is_verified : Bool
  is_sensitive : Bool
  is_fabricated : Bool
  is_spam_list : Bool
  is_retired : Bool
  is_malware : Bool
  is_stealer_log : Bool
  is_subscription_free : Bool
  added_on : Option String
  modified_on : Option String
  logo_path : String
deriving DecidableEq, Repr

/-- Python `x.get(k1, x.get(k2))` for the `pwn_count` pair (two-level
`dict.get` whose default is the other key's lookup). -/
def getOpt2 {α : Type} (a b : Option α) : Option α :=
  match a with
  | some v => some v
  | none => b

/-- The `defaults` construction for one record (views.py lines 235-281),
including the final empty-string-to-`None` pass on the date fields. -/
def mkDefaults (it : BreachItem) : RowData :=
  { domain := domainOf it
    occurred_on := blankToNone (breachDtOf it)
    title := pyOrS (titleOf it) (pyOrS (rawNameOf it) (domainOf it))
    description := getStr2 it.description it.Description
    pwn_count := getOpt2 it.pwn_count it.PwnCount
    data_classes := pyOrL it.data_classes (pyOrL it.DataClasses [])
    is_verified := flagOf it.is_verified it.IsVerified
    is_sensitive := flagOf it.is_sensitive it.IsSensitive
    is_fabricated := flagOf it.is_fabricated it.IsFabricated
    is_spam_list := flagOf it.is_spam_list it.IsSpamList
    is_retired := flagOf it.is_retired it.IsRetired
    is_malware := flagOf it.is_malware it.IsMalware
    is_stealer_log := flagOf it.is_stealer_log it.IsStealerLog
    is_subscription_free := flagOf it.is_subscription_free it.IsSubscriptionFree
    added_on := blankToNone (addedDtOf it)
    modified_on := blankToNone (modDtOf it)
    logo_path := "" }

/-- One stored `BreachHit` row of the identity being scanned:
the natural-key column `breach_name` plus the mutable columns. -/
structure BreachRow where
  breach_name : String
  data : RowData
deriving DecidableEq, Repr

/-- The `breach_name` column of every stored row for this identity. -/
def dbNames (db : List BreachRow) : List String := db.map (·.breach_name)

/-- Django's `Model.objects.update_or_create(key..., defaults=...)`:
look up by the key column; if present overwrite the defaults in place
(reporting `created = false`), otherwise append a fresh row (reporting
`created = true`). -/
def updateOrCreate {α : Type} (key : α → String) (k : String) (fresh : α)
    (db : List α) : List α × Bool :=
  if db.any (fun r => key r = k) then
    (db.map (fun r => if key r = k then fresh else r), false)
  else (db ++ [fresh], true)

/-- `f"{base} ({n})"` — the disambiguation candidate. -/
def candidateName (base : String) (n : Nat) : String :=
  base ++ " (" ++ Nat.repr n ++ ")"

/-- The collision `while` loop of `scan_identity`: starting at `n`, keep
incrementing while `candidateName base n` is either a stored name or an
in-batch name (the `taken` list); return the first free candidate.  The
fuel argument is an embedding artifact: `suffixSearch_spec` shows the
fuel `scan_identity` passes is always enough for the loop to exit on a
free candidate, exactly as the unbounded Python loop does. -/
def suffixSearch (taken : List String) (base : String) : Nat → Nat → String
  | 0, n => candidateName base n
  | fuel + 1, n =>
      if candidateName base n ∈ taken then suffixSearch taken base fuel (n + 1)
      else candidateName base n

/-- The collision branch: `n = 2`, then the `while` loop over the union
of the stored names and the in-batch `seen_names` set. -/
def resolveCollision (db : List BreachRow) (seen : List String) (base : String) : String :=
  suffixSearch (dbNames db ++ seen) base (db.length + seen.length + 1) 2

/-- The loop state of the upsert pass in `scan_identity`: the stored
rows for this identity, the request-local `seen_names` set, and the two
counters reported to the user. -/
structure ScanState where
  db : List BreachRow
  seen : List String
  created_count : Nat
  updated_count : Nat
deriving DecidableEq, Repr

/-- One iteration of the `for item in results` loop of `scan_identity`:
resolve the name, disambiguate on an in-batch collision, record the name
in `seen_names`, then `update_or_create` on `(identity, breach_name)`. -/
def scanStep (st : ScanState) (it : BreachItem) : ScanState :=
  let name0 := resolveName it
  let name := if name0 ∈ st.seen then resolveCollision st.db st.seen name0 else name0
  let res := updateOrCreate (·.breach_name) name ⟨name, mkDefaults it⟩ st.db
  if res.2 then ⟨res.1, name :: st.seen, st.created_count + 1, st.updated_count⟩
  else ⟨res.1, name :: st.seen, st.created_count, st.updated_count + 1⟩

/-- The whole breach-upsert pass of `scan_identity` over one batch,
starting from the stored rows `db` of the identity being scanned
(`seen_names` starts empty and the counters at zero). -/
def scanIdentity (db : List BreachRow) (results : List BreachItem) : ScanState :=
  results.foldl scanStep ⟨db, [], 0, 0⟩

/-- The dict produced by the client for one normalized record, as seen
by `scan_identity`: normalized keys present, raw HIBP keys absent. -/
def normToItem (nb : NormBreach) : BreachItem :=
  { breach_name := some nb.breach_name
    title := some nb.title
    domain := some nb.domain
    occurred_on := nb.occurred_on
    added_on := nb.added_on
    modified_on := nb.modified_on
    description := some nb.description
    pwn_count := some nb.pwn_count
    data_classes := some nb.data_classes
    is_verified := some nb.is_verified
    is_sensitive := some nb.is_sensitive
    is_fabricated := some nb.is_fabricated
    is_spam_list := some nb.is_spam_list
    is_retired := some nb.is_retired
    is_malware := some nb.is_malware
    is_stealer_log := some nb.is_stealer_log
    is_subscription_free := some nb.is_subscription_free }

/-! ### The upsert pass: behaviour on collision-free batches. -/

/-- The stored row that one batch record gives rise to when its resolved
name is used as the upsert key. -/
def rowOf (it : BreachItem) : BreachRow := ⟨resolveName it, mkDefaults it⟩

/-- Concrete fixtures for the witnesses and counterexamples. -/
def itemAdobe : BreachItem := { Name := some "Adobe", Domain := some "adobe.com" }

def itemLinkedIn : BreachItem := { Name := some "LinkedIn" }

def itemX : BreachItem := { Name := some "X" }

/-! ### `fetch_kev_items` (security_ticker/services/sources.py). -/

/-- A displayable ticker item `{title, date, link}`. -/
structure TickerItem where
  title : String
  date : String
  link : String
deriving DecidableEq, Repr

/-- One entry of the CISA KEV `vulnerabilities` array (fields read by
`fetch_kev_items`, `none` = absent). -/
structure CisaVuln where
  cveID : Option String := none
  cve_id : Option String := none
  dateAdded : Option String := none
  date_added : Option String := none
  vendorProject : Option String := none
deriving DecidableEq, Repr

/-- The parsed CISA KEV JSON document. -/
structure CisaDoc where
  vulnerabilities : Option (List CisaVuln) := none
  known_exploited_vulnerabilities : Option (List CisaVuln) := none
deriving DecidableEq, Repr

/-- The `cve` object of one NVD entry. -/
structure NvdCve where
  id : Option String := none
  published : Option String := none
deriving DecidableEq, Repr

/-- One entry of the NVD `vulnerabilities` array; `obj.get("cve", {}) or {}`
makes an absent/empty object behave as the empty record. -/
structure NvdObj where
  cve : Option NvdCve := none
deriving DecidableEq, Repr

/-- The parsed NVD hasKev JSON document. -/
structure NvdDoc where
  vulnerabilities : Option (List NvdObj) := none
deriving DecidableEq, Repr

/-- The outcome of one `_get_json` call: either the parsed document or a
raised exception (network failure, 4xx/5xx, bad JSON) with its message. -/
inductive FeedFetch (α : Type) where
  | raised (msg : String)
  | ok (doc : α)
deriving DecidableEq, Repr

/-- `limit_int = max(1, min(int(limit), 50))`. -/
def clampLimit (limit : Int) : Nat := (max 1 (min limit 50)).toNat

/-- The CISA KEV catalog URL used for item links. -/
def kevCatalogUrl : String :=
  "https://www.cisa.gov/known-exploited-vulnerabilities-catalog"

/-- The mapping of one CISA vulnerability entry to a ticker item. -/
def cisaItem (v : CisaVuln) : TickerItem :=
  let cve := getStr2 v.cveID v.cve_id
  { title := pyOrS cve (pyOrS (v.vendorProject.getD "") "CISA KEV")
    date := pyTake (getStr2 v.dateAdded v.date_added) 10
    link := if cve = "" then kevCatalogUrl
      else kevCatalogUrl ++ "?search_api_fulltext=" ++ cve }

/-- The mapping of one NVD entry to a ticker item. -/
def nvdItem (obj : NvdObj) : TickerItem :=
  let c := obj.cve.getD {}
  let cve := c.id.getD ""
  { title := pyOrS cve "NVD hasKev"
    date := pyTake (c.published.getD "") 10
    link := if cve = "" then "https://nvd.nist.gov/"
      else "https://nvd.nist.gov/vuln/detail/" ++ cve }

/-- The static last-resort ticker item. -/
def kevFallbackItem : TickerItem :=
  { title := "No KEV feed available", date := "", link := kevCatalogUrl }

/-- The items produced by the CISA attempt: none if the fetch raised
(the exception is caught and logged), else the mapped, limit-truncated
`vulnerabilities` array (accepting the alternate document key). -/
def cisaItemsOf (limitInt : Nat) (cisa : FeedFetch CisaDoc) : List TickerItem :=
  match cisa with
  | .raised _ => []
  | .ok doc =>
      ((pyOrL doc.vulnerabilities
        (pyOrL doc.known_exploited_vulnerabilities [])).take limitInt).map cisaItem

/-- The items produced by the NVD fallback attempt. -/
def nvdItemsOf (limitInt : Nat) (nvd : FeedFetch NvdDoc) : List TickerItem :=
  match nvd with
  | .raised _ => []
  | .ok doc => ((doc.vulnerabilities.getD []).take limitInt).map nvdItem

/-- The `if items: return items, tag` cascade of `fetch_kev_items`:
first non-empty item list wins, else the static fallback item. -/
def kevSelect (primary secondary : List TickerItem) : List TickerItem × String :=
  match primary with
  | p :: ps => (p :: ps, "cisa_json")
  | [] =>
    match secondary with
    | q :: qs => (q :: qs, "nvd_hasKev")
    | [] => ([kevFallbackItem], "fallback")

/-- `fetch_kev_items`: try the CISA feed (the primary URL list has one
entry), fall back to the NVD hasKev feed, fall back to the static item.
A feed "fails" either by raising (caught, logged, loop continues) or by
yielding zero usable items.  The returned source tag is one of
`"cisa_json"`, `"nvd_hasKev"`, `"fallback"`; the error message of a
failed fetch goes to the log only and never into the return value. -/
def fetchKevItems (limit : Int) (cisa : FeedFetch CisaDoc) (nvd : FeedFetch NvdDoc) :
    List TickerItem × String :=
  kevSelect (cisaItemsOf (clampLimit limit) cisa) (nvdItemsOf (clampLimit limit) nvd)

/-! ### `scan_target` (views.py): host upsert keyed by IP. -/

/-- The normalized host dict returned by `fetch_host` as read by
`scan_target` (`none` = key absent).  `fetch_host` synthesizes `ip_str`
from a structured `ip` field when missing, so the values read here are
strings. -/
structure HostData where
  ip_str : Option String := none
  ip : Option String := none
  hostnames : Option (List String) := none
  ports : Option (List Int) := none
  org : Option String := none
  os : Option String := none
  last_update : Option String := none
deriving DecidableEq, Repr

/-- One stored `ShodanFinding` row: the `ip` key plus the snapshot
columns overwritten on every successful scan. -/
structure ShodanRow where
  ip : String
  hostnames : List String
  ports : List Int
  org : String
  os : String
  raw : HostData
  last_seen : String
deriving DecidableEq, Repr

/-- Insert into a sorted list (ascending). -/
def insertSortedInt (x : Int) : List Int → List Int
  | [] => [x]
  | y :: ys => if x ≤ y then x :: y :: ys else y :: insertSortedInt x ys

/-- Insertion sort, ascending. -/
def insertionSortInt : List Int → List Int
  | [] => []
  | x :: xs => insertSortedInt x (insertionSortInt xs)

/-- Remove duplicates (the element set of the list). -/
def dedupInt : List Int → List Int
  | [] => []
  | x :: xs =>
      let r := dedupInt xs
      if x ∈ r then r else x :: r

/-- Python `sorted({int(p) for p in ports_raw})`: the distinct port
values in ascending order (all values in the modelled input are already
integers, so the `except` fallback to the original order never fires). -/
def sortedUniquePorts (l : List Int) : List Int := insertionSortInt (dedupInt l)

/-- The `defaults` written by `scan_target` for the resolved IP. -/
def mkHostRow (now : String) (d : HostData) (ip : String) : ShodanRow :=
  { ip := ip
    hostnames := pyOrL d.hostnames []
    ports := sortedUniquePorts (pyOrL d.ports [])
    org := pyOrS (d.org.getD "") ""
    os := pyOrS (d.os.getD "") ""
    raw := d
    last_seen := pyOrD d.last_update now }

/-- The storage effect of `scan_target` once `fetch_host` has returned:
`none` models a falsy result ("No data found", nothing written); with
data, the IP is `data.get("ip_str") or data.get("ip")` and a blank IP
aborts without writing; otherwise one `update_or_create` keyed on `ip`.
`now` is `timezone.now()`, the default for a missing `last_update`. -/
def scanTarget (now : String) (db : List ShodanRow) (data : Option HostData) :
    List ShodanRow :=
  match data with
  | none => db
  | some d =>
    let ip := getStr2 d.ip_str d.ip
    if ip = "" then db
    else (updateOrCreate (fun r => r.ip) ip (mkHostRow now d ip) db).1

/-- First concrete host snapshot for the C8 witness. -/
def hostData1 : HostData :=
  { ip_str := some "8.8.8.8", hostnames := some ["dns.google"] }

/-- Second concrete host snapshot for the C8 witness (same IP, different
hostname list). -/
def hostData2 : HostData :=
  { ip_str := some "8.8.8.8", hostnames := some ["dns.google", "dns2.google"] }

/-! ### Decimal representation: injectivity of `Nat.repr`

Needed to show the collision loop's candidates `base (2)`, `base (3)`, …
are pairwise distinct, which bounds the loop and pins down its result. -/

lemma toDigitsCore_eq_digits (fuel : Nat) :
    ∀ (n : Nat) (acc : List Char), n < fuel → 0 < n →
      Nat.toDigitsCore 10 fuel n acc
        = ((Nat.digits 10 n).map Nat.digitChar).reverse ++ acc := by
  induction fuel with
  | zero => intro n acc h _; omega
  | succ f ih =>
    intro n acc hfuel hn
    rw [Nat.digits_def' (by norm_num : (1:Nat) < 10) hn]
    by_cases h10 : n / 10 = 0
    · simp [Nat.toDigitsCore, h10, Nat.digits_zero]
    · have hrec := ih (n / 10) (Nat.digitChar (n % 10) :: acc)
        (by
          have : n / 10 < n := Nat.div_lt_self hn (by norm_num)
          omega)
        (Nat.pos_of_ne_zero h10)
      simp only [Nat.toDigitsCore, h10, if_false]
      rw [hrec]
      simp [List.append_assoc]

lemma repr_pos_eq (n : Nat) (hn : 0 < n) :
    Nat.repr n = ⟨((Nat.digits 10 n).map Nat.digitChar).reverse⟩ := by
  have : n < n + 1 := Nat.lt_succ_self n
  simp [Nat.repr, Nat.toDigits, List.asString,
    toDigitsCore_eq_digits (n + 1) n [] this hn]

lemma digitChar_inj_lt : ∀ a < 10, ∀ b < 10, Nat.digitChar a = Nat.digitChar b → a = b := by
  decide

lemma map_digitChar_inj :
    ∀ (l1 l2 : List Nat), (∀ x ∈ l1, x < 10) → (∀ x ∈ l2, x < 10) →
      l1.map Nat.digitChar = l2.map Nat.digitChar → l1 = l2 := by
  intro l1
  induction l1 with
  | nil => intro l2 _ _ h; cases l2 <;> simp_all
  | cons a t ih =>
    intro l2 h1 h2 h
    cases l2 with
    | nil => simp_all
    | cons b t2 =>
      simp only [List.map_cons, List.cons.injEq] at h
      have ha := h1 a (List.mem_cons_self _ _)
      have hb := h2 b (List.mem_cons_self _ _)
      have : a = b := digitChar_inj_lt a ha b hb h.1
      subst this
      have := ih t2 (fun x hx => h1 x (List.mem_cons_of_mem _ hx))
        (fun x hx => h2 x (List.mem_cons_of_mem _ hx)) h.2
      simp [this]

lemma string_data_inj {s t : String} (h : s.data = t.data) : s = t := by
  cases s; cases t; exact congrArg String.mk h

lemma nat_repr_inj {m n : Nat} (h : Nat.repr m = Nat.repr n) : m = n := by
  rcases Nat.eq_zero_or_pos m with hm | hm
  · rcases Nat.eq_zero_or_pos n with hn | hn
    · omega
    · exfalso
      subst hm
      have h0 : Nat.repr 0 = "0" := rfl
      rw [h0, repr_pos_eq n hn] at h
      have hd2 : (['0'] : List Char) = ((Nat.digits 10 n).map Nat.digitChar).reverse :=
        congrArg String.data h
      have hmap : (Nat.digits 10 n).map Nat.digitChar = ['0'] := by
        have := congrArg List.reverse hd2
        simpa using this.symm
      have : Nat.digits 10 n = [0] := by
        apply map_digitChar_inj
        · exact fun x hx => Nat.digits_lt_base (by norm_num) hx
        · intro x hx; simp at hx; omega
        · simpa using hmap
      have := congrArg (Nat.ofDigits 10) this
      rw [Nat.ofDigits_digits] at this
      simp [Nat.ofDigits] at this
      omega
  · rcases Nat.eq_zero_or_pos n with hn | hn
    · exfalso
      subst hn
      have h0 : Nat.repr 0 = "0" := rfl
      rw [h0, repr_pos_eq m hm] at h
      have hd2 : ((Nat.digits 10 m).map Nat.digitChar).reverse = (['0'] : List Char) :=
        congrArg String.data h
      have hmap : (Nat.digits 10 m).map Nat.digitChar = ['0'] := by
        have := congrArg List.reverse hd2
        simpa using this
      have : Nat.digits 10 m = [0] := by
        apply map_digitChar_inj
        · exact fun x hx => Nat.digits_lt_base (by norm_num) hx
        · intro x hx; simp at hx; omega
        · simpa using hmap
      have := congrArg (Nat.ofDigits 10) this
      rw [Nat.ofDigits_digits] at this
      simp [Nat.ofDigits] at this
      omega
    · rw [repr_pos_eq m hm, repr_pos_eq n hn] at h
      have hd := congrArg String.data h
      simp only at hd
      have hrev : ((Nat.digits 10 m).map Nat.digitChar).reverse
          = ((Nat.digits 10 n).map Nat.digitChar).reverse := by simpa using hd
      have hmap := congrArg List.reverse hrev
      simp only [List.reverse_reverse] at hmap
      have hdig : Nat.digits 10 m = Nat.digits 10 n := by
        apply map_digitChar_inj
        · exact fun x hx => Nat.digits_lt_base (by norm_num) hx
        · exact fun x hx => Nat.digits_lt_base (by norm_num) hx
        · exact hmap
      have := congrArg (Nat.ofDigits 10) hdig
      rwa [Nat.ofDigits_digits, Nat.ofDigits_digits] at this

lemma candidateName_inj (base : String) {m n : Nat}
    (h : candidateName base m = candidateName base n) : m = n := by
  have hd := congrArg String.data h
  simp only [candidateName, String.data_append, List.append_assoc] at hd
  have h1 := List.append_cancel_left hd
  have h2 := List.append_cancel_left h1
  have h3 := List.append_cancel_right h2
  exact nat_repr_inj (string_data_inj h3)

/-! ### The collision loop: termination fuel is sufficient and the
result is the first free candidate. -/

lemma exists_free_candidate (taken : List String) (base : String) (n0 : Nat) :
    ∃ i, i ≤ taken.length ∧ candidateName base (n0 + i) ∉ taken := by
  by_contra hcon
  push_neg at hcon
  have hinj : Function.Injective (fun i : Nat => candidateName base (n0 + i)) := by
    intro a b hab
    have := candidateName_inj base hab
    omega
  have hnd : ((List.range (taken.length + 1)).map
      (fun i => candidateName base (n0 + i))).Nodup :=
    (List.nodup_range _).map hinj
  have hsub : ((List.range (taken.length + 1)).map
      (fun i => candidateName base (n0 + i))) ⊆ taken := by
    intro x hx
    rcases List.mem_map.1 hx with ⟨i, hi, rfl⟩
    exact hcon i (Nat.lt_succ_iff.mp (List.mem_range.1 hi))
  have hle := (hnd.subperm hsub).length_le
  simp at hle

lemma suffixSearch_spec (taken : List String) (base : String) :
    ∀ (fuel n : Nat), (∃ i, i < fuel ∧ candidateName base (n + i) ∉ taken) →
      ∃ j, suffixSearch taken base fuel n = candidateName base (n + j) ∧
        candidateName base (n + j) ∉ taken ∧
        ∀ k, k < j → candidateName base (n + k) ∈ taken := by
  intro fuel
  induction fuel with
  | zero =>
    rintro n ⟨i, hi, -⟩
    omega
  | succ f ih =>
    rintro n ⟨i, hi, hfree⟩
    by_cases hmem : candidateName base n ∈ taken
    · have hi0 : i ≠ 0 := by
        rintro rfl
        simp only [Nat.add_zero] at hfree
        exact hfree hmem
      have hex : ∃ i2, i2 < f ∧ candidateName base ((n + 1) + i2) ∉ taken := by
        refine ⟨i - 1, by omega, ?_⟩
        have he : (n + 1) + (i - 1) = n + i := by omega
        rw [he]
        exact hfree
      obtain ⟨j, heq, hfreej, hbelow⟩ := ih (n + 1) hex
      have hshift : (n + 1) + j = n + (j + 1) := by omega
      refine ⟨j + 1, ?_, ?_, ?_⟩
      · rw [suffixSearch, if_pos hmem, heq, hshift]
      · rw [← hshift]; exact hfreej
      · intro k hk
        cases k with
        | zero => simpa using hmem
        | succ k2 =>
          have := hbelow k2 (by omega)
          have he2 : (n + 1) + k2 = n + (k2 + 1) := by omega
          rwa [he2] at this
    · refine ⟨0, ?_, ?_, by omega⟩
      · rw [suffixSearch, if_neg hmem, Nat.add_zero]
      · simpa using hmem

lemma resolveCollision_spec (db : List BreachRow) (seen : List String) (base : String) :
    ∃ n, 2 ≤ n ∧ resolveCollision db seen base = candidateName base n ∧
      candidateName base n ∉ dbNames db ∧ candidateName base n ∉ seen ∧
      ∀ m, 2 ≤ m → m < n →
        candidateName base m ∈ dbNames db ∨ candidateName base m ∈ seen := by
  obtain ⟨i, hile, hifree⟩ := exists_free_candidate (dbNames db ++ seen) base 2
  have hlen : (dbNames db ++ seen).length = db.length + seen.length := by
    simp [dbNames]
  obtain ⟨j, heq, hfreej, hbelow⟩ :=
    suffixSearch_spec (dbNames db ++ seen) base (db.length + seen.length + 1) 2
      ⟨i, by omega, hifree⟩
  have hfree2 := List.mem_append.not.mp hfreej
  push_neg at hfree2
  refine ⟨2 + j, by omega, heq, hfree2.1, hfree2.2, ?_⟩
  intro m h2 hlt
  have := hbelow (m - 2) (by omega)
  rw [show 2 + (m - 2) = m by omega] at this
  exact List.mem_append.1 this

/-! ### Generic facts about `updateOrCreate` (Django upsert). -/

lemma updateOrCreate_any_true {α : Type} (key : α → String) (k : String) (fresh : α)
    (db : List α) (h : db.any (fun r => key r = k) = true) :
    updateOrCreate key k fresh db
      = (db.map (fun r => if key r = k then fresh else r), false) := by
  unfold updateOrCreate
  rw [if_pos h]

lemma updateOrCreate_any_false {α : Type} (key : α → String) (k : String) (fresh : α)
    (db : List α) (h : db.any (fun r => key r = k) = false) :
    updateOrCreate key k fresh db = (db ++ [fresh], true) := by
  unfold updateOrCreate
  rw [if_neg (by simp [h])]

lemma any_key_iff {α : Type} (key : α → String) (k : String) (db : List α) :
    db.any (fun r => key r = k) = true ↔ k ∈ db.map key := by
  rw [List.any_eq_true]
  constructor
  · rintro ⟨r, hr, hrk⟩
    simp only [decide_eq_true_eq] at hrk
    exact hrk ▸ List.mem_map_of_mem key hr
  · intro hmem
    rcases List.mem_map.1 hmem with ⟨r, hr, hrk⟩
    exact ⟨r, hr, by simp [hrk]⟩

/-- The keys column after an upsert: unchanged by an update, extended by
`[k]` on a create. -/
lemma updateOrCreate_map_key {α : Type} (key : α → String) (k : String) (fresh : α)
    (db : List α) (hk : key fresh = k) :
    ((updateOrCreate key k fresh db).1.map key
        = db.map key ∧ (updateOrCreate key k fresh db).2 = false ∧ k ∈ db.map key) ∨
      ((updateOrCreate key k fresh db).1.map key = db.map key ++ [k] ∧
        (updateOrCreate key k fresh db).2 = true ∧ k ∉ db.map key) := by
  by_cases h : db.any (fun r => key r = k) = true
  · left
    rw [updateOrCreate_any_true key k fresh db h]
    refine ⟨?_, rfl, (any_key_iff key k db).1 h⟩
    simp only [List.map_map]
    apply List.map_congr_left
    intro r _
    by_cases hr : key r = k
    · simp [hr, hk]
    · simp [hr]
  · right
    have hf : db.any (fun r => key r = k) = false := by
      simpa using h
    rw [updateOrCreate_any_false key k fresh db hf]
    refine ⟨by simp [hk], rfl, ?_⟩
    intro hmem
    exact h ((any_key_iff key k db).2 hmem)

/-- An upsert with key `k` preserves key-uniqueness of the store. -/
lemma updateOrCreate_nodup {α : Type} (key : α → String) (k : String) (fresh : α)
    (db : List α) (hk : key fresh = k) (hnd : (db.map key).Nodup) :
    ((updateOrCreate key k fresh db).1.map key).Nodup := by
  rcases updateOrCreate_map_key key k fresh db hk with ⟨h1, -, -⟩ | ⟨h1, -, h3⟩
  · rwa [h1]
  · rw [h1]
    simp [List.nodup_append, hnd, h3]

/-- Rows whose key differs from the upserted key survive unchanged. -/
lemma mem_updateOrCreate_of_ne {α : Type} (key : α → String) (k : String) (fresh : α)
    (db : List α) (r : α) (hr : r ∈ db) (hne : key r ≠ k) :
    r ∈ (updateOrCreate key k fresh db).1 := by
  by_cases h : db.any (fun r => key r = k) = true
  · rw [updateOrCreate_any_true key k fresh db h]
    exact List.mem_map.2 ⟨r, hr, by simp [hne]⟩
  · rw [updateOrCreate_any_false key k fresh db (by simpa using h)]
    exact List.mem_append_left _ hr

/-- The upserted row is present afterwards. -/
lemma fresh_mem_updateOrCreate {α : Type} (key : α → String) (k : String) (fresh : α)
    (db : List α) : fresh ∈ (updateOrCreate key k fresh db).1 := by
  by_cases h : db.any (fun r => key r = k) = true
  · rw [updateOrCreate_any_true key k fresh db h]
    rcases List.any_eq_true.1 h with ⟨r, hrmem, hrk⟩
    simp only [decide_eq_true_eq] at hrk
    exact List.mem_map.2 ⟨r, hrmem, by simp [hrk]⟩
  · rw [updateOrCreate_any_false key k fresh db (by simpa using h)]
    exact List.mem_append_right _ (List.mem_singleton_self _)

/-- If no row of `l` carries key `k`, the replacement map is the identity. -/
lemma map_replace_of_not_mem {α : Type} (key : α → String) (k : String) (fresh : α)
    (l : List α) (h : ∀ r ∈ l, key r ≠ k) :
    l.map (fun r => if key r = k then fresh else r) = l := by
  conv_rhs => rw [← List.map_id l]
  apply List.map_congr_left
  intro r hr
  simp [h r hr]

/-- Replacing the (unique) row keyed `k` by itself is the identity. -/
lemma map_replace_self {α : Type} (key : α → String) (k : String) (fresh : α)
    (hk : key fresh = k) :
    ∀ db : List α, (db.map key).Nodup → fresh ∈ db →
      db.map (fun r => if key r = k then fresh else r) = db := by
  intro db
  induction db with
  | nil => simp
  | cons a t ih =>
    intro hnd hmem
    rw [List.map_cons, List.nodup_cons] at hnd
    rcases List.mem_cons.1 hmem with rfl | hmem2
    · rw [List.map_cons, if_pos hk]
      congr 1
      apply map_replace_of_not_mem
      intro r hr hrk
      refine hnd.1 ?_
      rw [hk, ← hrk]
      exact List.mem_map_of_mem key hr
    · have hka : key a ≠ k := by
        intro hEq
        refine hnd.1 ?_
        rw [hEq, ← hk]
        exact List.mem_map_of_mem key hmem2
      rw [List.map_cons, if_neg hka, ih hnd.2 hmem2]

/-- Updating a key-unique store with the row it already holds is a no-op. -/
lemma updateOrCreate_self {α : Type} (key : α → String) (k : String) (fresh : α)
    (db : List α) (hk : key fresh = k) (hnd : (db.map key).Nodup)
    (hmem : fresh ∈ db) :
    updateOrCreate key k fresh db = (db, false) := by
  have hany : db.any (fun r => key r = k) = true :=
    List.any_eq_true.2 ⟨fresh, hmem, by simp [hk]⟩
  rw [updateOrCreate_any_true key k fresh db hany,
    map_replace_self key k fresh hk db hnd hmem]

lemma scanStep_no_collision (st : ScanState) (it : BreachItem)
    (h : resolveName it ∉ st.seen) :
    scanStep st it =
      (if (updateOrCreate (fun r => r.breach_name) (resolveName it) (rowOf it) st.db).2 then
        ⟨(updateOrCreate (fun r => r.breach_name) (resolveName it) (rowOf it) st.db).1,
          resolveName it :: st.seen, st.created_count + 1, st.updated_count⟩
      else
        ⟨(updateOrCreate (fun r => r.breach_name) (resolveName it) (rowOf it) st.db).1,
          resolveName it :: st.seen, st.created_count, st.updated_count + 1⟩) := by
  simp only [scanStep, rowOf]
  rw [if_neg h]

lemma scanStep_db_no_collision (st : ScanState) (it : BreachItem)
    (h : resolveName it ∉ st.seen) :
    (scanStep st it).db
      = (updateOrCreate (fun r => r.breach_name) (resolveName it) (rowOf it) st.db).1 := by
  rw [scanStep_no_collision st it h]
  by_cases h2 : (updateOrCreate (fun r => r.breach_name) (resolveName it) (rowOf it) st.db).2
  · rw [if_pos h2]
  · rw [if_neg h2]

lemma scanStep_seen_no_collision (st : ScanState) (it : BreachItem)
    (h : resolveName it ∉ st.seen) :
    (scanStep st it).seen = resolveName it :: st.seen := by
  rw [scanStep_no_collision st it h]
  by_cases h2 : (updateOrCreate (fun r => r.breach_name) (resolveName it) (rowOf it) st.db).2
  · rw [if_pos h2]
  · rw [if_neg h2]

lemma foldl_preserves_mem (batch : List BreachItem) :
    ∀ (st : ScanState) (r : BreachRow),
      r ∈ st.db →
      (∀ it ∈ batch, resolveName it ∉ st.seen) →
      (batch.map resolveName).Nodup →
      r.breach_name ∉ batch.map resolveName →
      r ∈ (batch.foldl scanStep st).db := by
  induction batch with
  | nil =>
    intro st r hr _ _ _
    simpa using hr
  | cons it rest ih =>
    intro st r hr hseen hnd hname
    rw [List.map_cons, List.nodup_cons] at hnd
    simp only [List.map_cons, List.mem_cons] at hname
    push_neg at hname
    have hnotin : resolveName it ∉ st.seen := hseen it (List.mem_cons_self _ _)
    rw [List.foldl_cons]
    apply ih (scanStep st it) r
    · rw [scanStep_db_no_collision st it hnotin]
      exact mem_updateOrCreate_of_ne _ _ _ _ r hr hname.1
    · intro it2 hit2
      rw [scanStep_seen_no_collision st it hnotin]
      intro hmem
      rcases List.mem_cons.1 hmem with hEq | hmem2
      · exact hnd.1 (hEq ▸ List.mem_map_of_mem resolveName hit2)
      · exact hseen it2 (List.mem_cons_of_mem _ hit2) hmem2
    · exact hnd.2
    · exact hname.2

lemma foldl_rows_present (batch : List BreachItem) :
    ∀ st : ScanState,
      (st.db.map (fun r => r.breach_name)).Nodup →
      (batch.map resolveName).Nodup →
      (∀ it ∈ batch, resolveName it ∉ st.seen) →
      ((batch.foldl scanStep st).db.map (fun r => r.breach_name)).Nodup ∧
        ∀ it ∈ batch, rowOf it ∈ (batch.foldl scanStep st).db := by
  induction batch with
  | nil =>
    intro st hdb _ _
    exact ⟨by simpa using hdb, by simp⟩
  | cons it rest ih =>
    intro st hdb hnd hseen
    rw [List.map_cons, List.nodup_cons] at hnd
    have hnotin : resolveName it ∉ st.seen := hseen it (List.mem_cons_self _ _)
    have hdb1 : ((scanStep st it).db.map (fun r => r.breach_name)).Nodup := by
      rw [scanStep_db_no_collision st it hnotin]
      exact updateOrCreate_nodup _ _ _ _ rfl hdb
    have hseen1 : ∀ it2 ∈ rest, resolveName it2 ∉ (scanStep st it).seen := by
      intro it2 hit2
      rw [scanStep_seen_no_collision st it hnotin]
      intro hmem
      rcases List.mem_cons.1 hmem with hEq | hmem2
      · exact hnd.1 (hEq ▸ List.mem_map_of_mem resolveName hit2)
      · exact hseen it2 (List.mem_cons_of_mem _ hit2) hmem2
    obtain ⟨hnd2, hmem2⟩ := ih (scanStep st it) hdb1 hnd.2 hseen1
    rw [List.foldl_cons]
    refine ⟨hnd2, ?_⟩
    intro it2 hit2
    rcases List.mem_cons.1 hit2 with rfl | hit3
    · apply foldl_preserves_mem rest (scanStep st it2) (rowOf it2)
      · rw [scanStep_db_no_collision st it2 hnotin]
        exact fresh_mem_updateOrCreate _ _ _ _
      · exact hseen1
      · exact hnd.2
      · exact hnd.1
    · exact hmem2 it2 hit3

lemma foldl_second_pass (batch : List BreachItem) :
    ∀ st : ScanState,
      (st.db.map (fun r => r.breach_name)).Nodup →
      (batch.map resolveName).Nodup →
      (∀ it ∈ batch, resolveName it ∉ st.seen) →
      (∀ it ∈ batch, rowOf it ∈ st.db) →
      (batch.foldl scanStep st).db = st.db ∧
        (batch.foldl scanStep st).created_count = st.created_count ∧
        (batch.foldl scanStep st).updated_count = st.updated_count + batch.length := by
  induction batch with
  | nil =>
    intro st _ _ _ _
    exact ⟨rfl, rfl, rfl⟩
  | cons it rest ih =>
    intro st hdb hnd hseen hrows
    rw [List.map_cons, List.nodup_cons] at hnd
    have hnotin : resolveName it ∉ st.seen := hseen it (List.mem_cons_self _ _)
    have hself := updateOrCreate_self (fun r : BreachRow => r.breach_name)
      (resolveName it) (rowOf it) st.db rfl hdb (hrows it (List.mem_cons_self _ _))
    have hstep : scanStep st it
        = ⟨st.db, resolveName it :: st.seen, st.created_count, st.updated_count + 1⟩ := by
      rw [scanStep_no_collision st it hnotin, hself]
      simp
    rw [List.foldl_cons, hstep]
    have hseen1 : ∀ it2 ∈ rest, resolveName it2 ∉ resolveName it :: st.seen := by
      intro it2 hit2
      intro hmem
      rcases List.mem_cons.1 hmem with hEq | hmem2
      · exact hnd.1 (hEq ▸ List.mem_map_of_mem resolveName hit2)
      · exact hseen it2 (List.mem_cons_of_mem _ hit2) hmem2
    obtain ⟨h1, h2, h3⟩ := ih ⟨st.db, resolveName it :: st.seen, st.created_count,
      st.updated_count + 1⟩ hdb hnd.2 hseen1
      (fun it2 hit2 => hrows it2 (List.mem_cons_of_mem _ hit2))
    refine ⟨h1, h2, ?_⟩
    rw [h3]
    simp only [List.length_cons]
    omega

lemma scanStep_db_eq (st : ScanState) (it : BreachItem) :
    ∃ name, (scanStep st it).db
      = (updateOrCreate (fun r => r.breach_name) name ⟨name, mkDefaults it⟩ st.db).1 := by
  by_cases h : resolveName it ∈ st.seen
  · refine ⟨resolveCollision st.db st.seen (resolveName it), ?_⟩
    simp only [scanStep]
    rw [if_pos h]
    split
    · rfl
    · rfl
  · refine ⟨resolveName it, ?_⟩
    rw [scanStep_db_no_collision st it h]
    rfl

lemma scanStep_nodup (st : ScanState) (it : BreachItem)
    (h : (st.db.map (fun r => r.breach_name)).Nodup) :
    ((scanStep st it).db.map (fun r => r.breach_name)).Nodup := by
  obtain ⟨name, hdb⟩ := scanStep_db_eq st it
  rw [hdb]
  exact updateOrCreate_nodup _ _ _ _ rfl h

lemma foldl_scanStep_nodup (batch : List BreachItem) :
    ∀ st : ScanState, (st.db.map (fun r => r.breach_name)).Nodup →
      ((batch.foldl scanStep st).db.map (fun r => r.breach_name)).Nodup := by
  induction batch with
  | nil =>
    intro st h
    simpa using h
  | cons it rest ih =>
    intro st h
    rw [List.foldl_cons]
    exact ih (scanStep st it) (scanStep_nodup st it h)

lemma scanStep_seen_collision (st : ScanState) (it : BreachItem)
    (h : resolveName it ∈ st.seen) :
    (scanStep st it).seen
      = resolveCollision st.db st.seen (resolveName it) :: st.seen := by
  simp only [scanStep]
  rw [if_pos h]
  split
  · rfl
  · rfl

/-- C2: after a breach-upsert pass, no two stored rows of the scanned
identity share a `breach_name` — the pass preserves the natural-key
uniqueness invariant of `(identity, breach_name)`, whatever the batch. -/
theorem scan_preserves_name_uniqueness (db : List BreachRow) (batch : List BreachItem)
    (hdb : (dbNames db).Nodup) : (dbNames (scanIdentity db batch).db).Nodup :=
  foldl_scanStep_nodup batch ⟨db, [], 0, 0⟩ hdb

theorem scan_preserves_name_uniqueness_witness :
    (dbNames [(⟨"X", mkDefaults itemX⟩ : BreachRow)]).Nodup ∧
      (dbNames (scanIdentity [⟨"X", mkDefaults itemX⟩] [itemAdobe, itemAdobe]).db).Nodup :=
  ⟨by decide,
    scan_preserves_name_uniqueness [⟨"X", mkDefaults itemX⟩] [itemAdobe, itemAdobe]
      (by decide)⟩

/-- C1 (amended): re-running the same batch is a no-op — identical stored
state, created-count 0, everything counted as updated — provided the
batch's records resolve to pairwise-distinct names (no in-batch
collision).  With in-batch duplicates the collision loop mints a fresh
suffix on the second pass (see the counterexample), so the restriction is
necessary. -/
theorem scan_rescan_idempotent (db : List BreachRow) (batch : List BreachItem)
    (hdb : (dbNames db).Nodup) (hbatch : (batch.map resolveName).Nodup) :
    (scanIdentity (scanIdentity db batch).db batch).db = (scanIdentity db batch).db ∧
      (scanIdentity (scanIdentity db batch).db batch).created_count = 0 ∧
      (scanIdentity (scanIdentity db batch).db batch).updated_count = batch.length := by
  have h1 := foldl_rows_present batch ⟨db, [], 0, 0⟩ hdb hbatch (by intro it hit; simp)
  have h2 := foldl_second_pass batch
    ⟨(List.foldl scanStep ⟨db, [], 0, 0⟩ batch).db, [], 0, 0⟩
    h1.1 hbatch (by intro it hit; simp) (fun it hit => h1.2 it hit)
  simp only [scanIdentity]
  refine ⟨h2.1, h2.2.1, ?_⟩
  rw [h2.2.2]
  simp

theorem scan_rescan_idempotent_witness :
    (dbNames ([] : List BreachRow)).Nodup ∧
      ([itemAdobe, itemLinkedIn].map resolveName).Nodup ∧
      ((scanIdentity (scanIdentity [] [itemAdobe, itemLinkedIn]).db
          [itemAdobe, itemLinkedIn]).db
        = (scanIdentity [] [itemAdobe, itemLinkedIn]).db ∧
      (scanIdentity (scanIdentity [] [itemAdobe, itemLinkedIn]).db
          [itemAdobe, itemLinkedIn]).created_count = 0 ∧
      (scanIdentity (scanIdentity [] [itemAdobe, itemLinkedIn]).db
          [itemAdobe, itemLinkedIn]).updated_count = [itemAdobe, itemLinkedIn].length) :=
  ⟨by decide, by decide,
    scan_rescan_idempotent [] [itemAdobe, itemLinkedIn] (by decide) (by decide)⟩

/-- C1 (counterexample): the claim as stated fails on a batch with an
in-batch duplicate name.  First pass over `[X, X]` stores rows
`X`, `X (2)`; on the second pass the duplicate again collides in-batch,
the loop skips the stored `X (2)` and creates `X (3)`: the second
application reports created-count 1 and changes the stored state. -/
theorem scan_rescan_not_idempotent_counterexample :
    (scanIdentity (scanIdentity [] [itemX, itemX]).db [itemX, itemX]).created_count = 1 ∧
      (scanIdentity (scanIdentity [] [itemX, itemX]).db [itemX, itemX]).db
        ≠ (scanIdentity [] [itemX, itemX]).db ∧
      dbNames (scanIdentity (scanIdentity [] [itemX, itemX]).db [itemX, itemX]).db
        = ["X", "X (2)", "X (3)"] := by
  refine ⟨by decide, by decide, by decide⟩

/-- C3 (amended): the disambiguating suffix is triggered **only** by an
in-batch collision (`name in seen_names`); a collision with a stored row
alone updates that row instead (see counterexample).  When triggered, the
stored name becomes `base (n)` with `n ≥ 2` minimal such that the
candidate is absent from both the stored names and the in-batch set —
every smaller candidate from 2 upward is taken by one of the two. -/
theorem scan_collision_suffixing (st : ScanState) (it : BreachItem) :
    (resolveName it ∉ st.seen → (scanStep st it).seen = resolveName it :: st.seen) ∧
      (resolveName it ∈ st.seen →
        ∃ n, 2 ≤ n ∧
          (scanStep st it).seen = candidateName (resolveName it) n :: st.seen ∧
          candidateName (resolveName it) n ∉ dbNames st.db ∧
          candidateName (resolveName it) n ∉ st.seen ∧
          ∀ m, 2 ≤ m → m < n →
            candidateName (resolveName it) m ∈ dbNames st.db ∨
              candidateName (resolveName it) m ∈ st.seen) := by
  constructor
  · exact fun h => scanStep_seen_no_collision st it h
  · intro h
    obtain ⟨n, h2, heq, hdbfree, hseenfree, hmin⟩ :=
      resolveCollision_spec st.db st.seen (resolveName it)
    refine ⟨n, h2, ?_, hdbfree, hseenfree, hmin⟩
    rw [scanStep_seen_collision st it h, heq]

theorem scan_collision_suffixing_witness :
    ∃ n, 2 ≤ n ∧
      (scanStep ⟨[⟨"X (2)", mkDefaults itemX⟩], ["X"], 0, 0⟩ itemX).seen
        = candidateName (resolveName itemX) n :: ["X"] ∧
      candidateName (resolveName itemX) n ∉ dbNames [⟨"X (2)", mkDefaults itemX⟩] ∧
      candidateName (resolveName itemX) n ∉ ["X"] ∧
      ∀ m, 2 ≤ m → m < n →
        candidateName (resolveName itemX) m ∈ dbNames [⟨"X (2)", mkDefaults itemX⟩] ∨
          candidateName (resolveName itemX) m ∈ ["X"] :=
  (scan_collision_suffixing ⟨[⟨"X (2)", mkDefaults itemX⟩], ["X"], 0, 0⟩ itemX).2
    (by decide)

/-- C3 (counterexample): a record whose resolved name collides **only**
with a stored row (no in-batch duplicate) gets no suffix: the pass
updates the stored `X` row in place — no `X (2)` row appears and nothing
is created, contradicting the claim that such a collision triggers the
suffix loop. -/
theorem stored_collision_no_suffix_counterexample :
    dbNames (scanIdentity [⟨"X", mkDefaults itemX⟩] [itemX]).db = ["X"] ∧
      (scanIdentity [⟨"X", mkDefaults itemX⟩] [itemX]).created_count = 0 ∧
      (scanIdentity [⟨"X", mkDefaults itemX⟩] [itemX]).updated_count = 1 := by
  refine ⟨by decide, by decide, by decide⟩

/-! ### Claims about normalization: nameless records, dates, data
classes, risk flags, and the client's response mapping. -/

lemma pyOrS_of_ne_empty (a b : String) (h : a ≠ "") : pyOrS a b = a := by
  simp [pyOrS, h]

lemma synthKeyOf_ne_empty (it : BreachItem) : synthKeyOf it ≠ "" := by
  intro h
  have hd := congrArg (fun s : String => s.data.length) h
  simp only [synthKeyOf, String.data_append, List.length_append] at hd
  have h8 : ("unknown-" : String).data.length = 8 := rfl
  have h1 : ("-" : String).data.length = 1 := rfl
  have h0 : ("" : String).data.length = 0 := rfl
  rw [h8, h1, h0] at hd
  omega

/-- C4 (amended): a raw record whose `Name` is absent or blank is dropped
entirely by the client's normalization — even when its title or domain is
non-empty — so it never reaches the store; and in the reconciliation
layer's name-resolution chain the final literal-`"Unknown"` arm is dead
code (the synthetic `unknown-…` key is never empty), so the fallback
never stores a row named by that literal. -/
theorem nameless_record_handling (raw : RawBreach) (it : BreachItem)
    (hname : pyStrip (raw.Name.getD "") = "") :
    normalizeBreach raw = none ∧ resolveName it = resolveNameNoUnknown it := by
  constructor
  · simp only [normalizeBreach]
    rw [if_pos hname]
  · simp only [resolveName, resolveNameNoUnknown]
    rw [pyOrS_of_ne_empty (synthKeyOf it) "Unknown" (synthKeyOf_ne_empty it)]

theorem nameless_record_handling_witness :
    normalizeBreach { Title := some "OnlyTitle", Domain := some "d.example" } = none ∧
      resolveName itemX = resolveNameNoUnknown itemX :=
  nameless_record_handling { Title := some "OnlyTitle", Domain := some "d.example" }
    itemX (by decide)

/-- C4 (counterexample): the claim says a record with no stable name but
a non-empty title or domain is never dropped.  End-to-end it **is**
dropped: the client maps it to `none` and returns an empty batch, so the
reconciliation pass stores nothing for it. -/
theorem nameless_with_title_dropped_counterexample :
    breachesForAccount "k" ⟨200, "application/json",
        .jsonList [{ Title := some "OnlyTitle", Domain := some "d.example" }]⟩
      = .items [] ∧
      (scanIdentity []
          ((([({ Title := some "OnlyTitle", Domain := some "d.example" } : RawBreach)]
            ).filterMap normalizeBreach).map normToItem)).db = [] := by
  refine ⟨by decide, by decide⟩

lemma isDateYMD_length (s : String) (h : isDateYMD s = true) : pyLen s = 10 := by
  unfold isDateYMD at h
  split at h
  · next heq => simp [pyLen, heq]
  · exact absurd h (by simp)

lemma pyLen_ten_ne_empty (s : String) (h : pyLen s = 10) : s ≠ "" := by
  intro hEq
  subst hEq
  exact absurd h (by decide)

/-- C6 (amended): the client's date normalizer returns `None` or a
ten-character fully digit-checked `YYYY-MM-DD` string; the reconciliation
layer's `_safe_date` returns `None` or a ten-character string with dashes
at positions 4 and 7 **without checking the digits** (see the
counterexample); neither can ever return the empty string. -/
theorem date_sanitation (v : Option String) :
    (∀ s, dateYyyyMmDd v = some s → isDateYMD s = true ∧ pyLen s = 10 ∧ s ≠ "") ∧
      (∀ s, safeDate v = some s →
        pyLen s = 10 ∧ s.data.getD 4 ' ' = '-' ∧ s.data.getD 7 ' ' = '-' ∧ s ≠ "") := by
  constructor
  · intro s hs
    cases v with
    | none => exact absurd hs (by simp [dateYyyyMmDd])
    | some v0 =>
      simp only [dateYyyyMmDd] at hs
      split at hs
      all_goals
        split at hs
        case isTrue hcond =>
          injection hs with hs2
          subst hs2
          exact ⟨hcond, isDateYMD_length _ hcond,
            pyLen_ten_ne_empty _ (isDateYMD_length _ hcond)⟩
        case isFalse _ => exact absurd hs (by simp)
  · intro s hs
    cases v with
    | none => exact absurd hs (by simp [safeDate])
    | some v0 =>
      simp only [safeDate] at hs
      split at hs
      · exact absurd hs (by simp)
      · split at hs
        · next hcond =>
          injection hs with hs2
          subst hs2
          exact ⟨hcond.1, hcond.2.1, hcond.2.2, pyLen_ten_ne_empty _ hcond.1⟩
        · exact absurd hs (by simp)

theorem date_sanitation_witness :
    (isDateYMD "2019-10-16" = true ∧ pyLen "2019-10-16" = 10 ∧
        ("2019-10-16" : String) ≠ "") ∧
      (pyLen "2019-10-16" = 10 ∧ ("2019-10-16" : String).data.getD 4 ' ' = '-' ∧
        ("2019-10-16" : String).data.getD 7 ' ' = '-' ∧ ("2019-10-16" : String) ≠ "") :=
  ⟨(date_sanitation (some "2019-10-16T00:00:00Z")).1 "2019-10-16" (by decide),
    (date_sanitation (some "2019-10-16T00:00:00Z")).2 "2019-10-16" (by decide)⟩

/-- C6 (counterexample): the claim says every non-`None` output of the
date-normalization steps matches `YYYY-MM-DD` (digits).  `_safe_date`
only checks length and dashes, so a non-digit string passes through. -/
theorem safe_date_nondigit_counterexample :
    safeDate (some "abcd-ef-gh") = some "abcd-ef-gh" ∧
      isDateYMD "abcd-ef-gh" = false := by
  refine ⟨by decide, by decide⟩

/-- C9 (amended): the data-class normalization accepts a native list
(elements trimmed, empties dropped) or a plain comma-separated string
(split on commas, trimmed, empties dropped) and anything else becomes
`[]`; every element of the result is a trimmed, non-empty string.  It
does **not** deduplicate, and a JSON-encoded string is not decoded — it
is treated as comma-separated text (see the counterexample). -/
theorem data_classes_normalization (dc : DCField) :
    (∀ s ∈ normDataClasses dc, s ≠ "") ∧
      (∀ xs, dc = .listV xs →
        ∀ s ∈ normDataClasses dc, ∃ x ∈ xs, s = pyStrip x) ∧
      (∀ str, dc = .strV str →
        ∀ s ∈ normDataClasses dc, ∃ seg ∈ pySplitComma str, s = pyStrip seg) ∧
      (dc = .otherV → normDataClasses dc = []) := by
  refine ⟨?_, ?_, ?_, ?_⟩
  · intro s hs
    cases dc with
    | listV xs =>
      simp only [normDataClasses, List.mem_filter] at hs
      simpa using hs.2
    | strV str =>
      simp only [normDataClasses, List.mem_filter] at hs
      simpa using hs.2
    | otherV => simp [normDataClasses] at hs
  · rintro xs rfl s hs
    simp only [normDataClasses, List.mem_filter, List.mem_map] at hs
    rcases hs.1 with ⟨x, hx, rfl⟩
    exact ⟨x, hx, rfl⟩
  · rintro str rfl s hs
    simp only [normDataClasses, List.mem_filter, List.mem_map] at hs
    rcases hs.1 with ⟨seg, hseg, rfl⟩
    exact ⟨seg, hseg, rfl⟩
  · rintro rfl
    rfl

theorem data_classes_normalization_witness :
    ∃ x ∈ [" a ", "", "b"], "a" = pyStrip x :=
  (data_classes_normalization (.listV [" a ", "", "b"])).2.1 [" a ", "", "b"] rfl
    "a" (by decide)

/-- C9 (counterexample): the result is not deduplicated, and a
JSON-encoded string is split on commas rather than decoded. -/
theorem data_classes_no_dedup_counterexample :
    normDataClasses (.listV ["Passwords", "Passwords"]) = ["Passwords", "Passwords"] ∧
      ¬ (normDataClasses (.listV ["Passwords", "Passwords"])).Nodup ∧
      normDataClasses (.strV "[\"Passwords\", \"Emails\"]")
        = ["[\"Passwords\"", "\"Emails\"]"] := by
  refine ⟨by decide, by decide, by decide⟩

/-- C10 (code bug): `_normalize_breach` coerces seven of the eight risk
flags from their upstream fields, but for `is_fabricated` it reads the
misspelled key `IsFabricricated` (hibp.py line 337) instead of the HIBP
field `IsFabricated` — the very key the raw-key path of `scan_identity`
uses.  A genuine record with `IsFabricated: true` therefore normalizes
to `is_fabricated = false`. -/
theorem is_fabricated_flag_miskeyed :
    (normalizeBreach { Name := some "X", IsFabricated := some true }).map
        (fun nb => nb.is_fabricated) = some false ∧
      (normalizeBreach { Name := some "X", IsVerified := some true }).map
        (fun nb => nb.is_verified) = some true ∧
      (normalizeBreach { Name := some "X", IsFabricricated := some true }).map
        (fun nb => nb.is_fabricated) = some true := by
  refine ⟨by decide, by decide, by decide⟩

/-- C5: the response mapping of `breaches_for_account` with a configured
credential: 404 yields an empty list, 401 raises the auth error, 429
raises the rate-limit error (the client has no retry path), every other
4xx/5xx raises the generic HTTP status error, and a 2xx whose content
type is not `application/json` yields an empty list instead of raising. -/
theorem breaches_for_account_response_mapping (key : String) (resp : HibpResponse)
    (hkey : key ≠ "") :
    (resp.status = 404 → breachesForAccount key resp = .items []) ∧
      (resp.status = 401 → breachesForAccount key resp = .authError) ∧
      (resp.status = 429 → breachesForAccount key resp = .rateLimitError) ∧
      (400 ≤ resp.status → resp.status < 600 → resp.status ≠ 401 →
        resp.status ≠ 404 → resp.status ≠ 429 →
        breachesForAccount key resp = .httpStatusError resp.status) ∧
      (200 ≤ resp.status → resp.status < 300 → ctIsJson resp.contentType = false →
        breachesForAccount key resp = .items []) := by
  unfold breachesForAccount
  refine ⟨?_, ?_, ?_, ?_, ?_⟩
  · intro h
    rw [if_neg hkey, if_pos h]
  · intro h
    rw [if_neg hkey, if_neg (by omega : ¬ resp.status = 404), if_pos h]
  · intro h
    rw [if_neg hkey, if_neg (by omega : ¬ resp.status = 404),
      if_neg (by omega : ¬ resp.status = 401), if_pos h]
  · intro h1 h2 h3 h4 h5
    rw [if_neg hkey, if_neg h4, if_neg h3, if_neg h5, if_pos ⟨h1, h2⟩]
  · intro h1 h2 hct
    rw [if_neg hkey, if_neg (by omega : ¬ resp.status = 404),
      if_neg (by omega : ¬ resp.status = 401),
      if_neg (by omega : ¬ resp.status = 429),
      if_neg (by omega : ¬ (400 ≤ resp.status ∧ resp.status < 600)),
      if_pos (by simp [hct])]

theorem breaches_for_account_response_mapping_witness :
    breachesForAccount "k" ⟨404, "application/json", .jsonNonList⟩ = .items [] ∧
      breachesForAccount "k" ⟨401, "application/json", .jsonNonList⟩ = .authError ∧
      breachesForAccount "k" ⟨429, "application/json", .jsonNonList⟩
        = .rateLimitError ∧
      breachesForAccount "k" ⟨503, "text/html", .invalidJson⟩
        = .httpStatusError 503 ∧
      breachesForAccount "k" ⟨200, "text/html", .invalidJson⟩ = .items [] :=
  ⟨(breaches_for_account_response_mapping "k"
      ⟨404, "application/json", .jsonNonList⟩ (by decide)).1 rfl,
    (breaches_for_account_response_mapping "k"
      ⟨401, "application/json", .jsonNonList⟩ (by decide)).2.1 rfl,
    (breaches_for_account_response_mapping "k"
      ⟨429, "application/json", .jsonNonList⟩ (by decide)).2.2.1 rfl,
    (breaches_for_account_response_mapping "k"
      ⟨503, "text/html", .invalidJson⟩ (by decide)).2.2.2.1 (by decide) (by decide)
      (by decide) (by decide) (by decide),
    (breaches_for_account_response_mapping "k"
      ⟨200, "text/html", .invalidJson⟩ (by decide)).2.2.2.2 (by decide) (by decide)
      (by decide)⟩

lemma kevSelect_spec (l1 l2 : List TickerItem) :
    (kevSelect l1 l2).1 ≠ [] ∧
      ((kevSelect l1 l2).2 = "cisa_json" ∨ (kevSelect l1 l2).2 = "nvd_hasKev" ∨
        (kevSelect l1 l2).2 = "fallback") := by
  cases l1 <;> cases l2 <;> simp [kevSelect]

/-- C7: `fetch_kev_items` is total — for every requested count and every
combination of primary/secondary failure (raised or empty) it returns a
non-empty list of ticker items (each carrying title, date and link by
construction of `TickerItem`) and a tag from the fixed three-element set;
and when both feeds fail the result is the same whatever the failure
messages were — the `"fallback"` tag leaks nothing about the reason. -/
theorem fetch_kev_items_total (limit : Int) (cisa : FeedFetch CisaDoc)
    (nvd : FeedFetch NvdDoc) :
    (fetchKevItems limit cisa nvd).1 ≠ [] ∧
      ((fetchKevItems limit cisa nvd).2 = "cisa_json" ∨
        (fetchKevItems limit cisa nvd).2 = "nvd_hasKev" ∨
        (fetchKevItems limit cisa nvd).2 = "fallback") ∧
      (∀ m1 m2 m3 m4,
        fetchKevItems limit (.raised m1) (.raised m2)
          = fetchKevItems limit (.raised m3) (.raised m4)) := by
  refine ⟨?_, ?_, ?_⟩
  · exact (kevSelect_spec _ _).1
  · exact (kevSelect_spec _ _).2
  · intro m1 m2 m3 m4
    rfl

/-- In a key-unique store, the rows filtered by the key of a member are
exactly that member. -/
lemma filter_key_eq_of_nodup {α : Type} (key : α → String) :
    ∀ (db : List α), (db.map key).Nodup → ∀ (i : String) (r0 : α), r0 ∈ db →
      key r0 = i → db.filter (fun r => key r = i) = [r0] := by
  intro db
  induction db with
  | nil => intro _ i r0 h0; cases h0
  | cons a t ih =>
    intro hnd i r0 h0 hk
    rw [List.map_cons, List.nodup_cons] at hnd
    rcases List.mem_cons.1 h0 with rfl | hmem
    · have htriv : t.filter (fun r => key r = i) = [] := by
        rw [List.filter_eq_nil_iff]
        intro b hb
        simp only [decide_eq_true_eq]
        intro hbk
        exact hnd.1 (by rw [hk, ← hbk]; exact List.mem_map_of_mem key hb)
      rw [List.filter_cons, if_pos (by simp [hk]), htriv]
    · have hak : key a ≠ i := by
        intro hEq
        exact hnd.1 (by rw [hEq, ← hk]; exact List.mem_map_of_mem key hmem)
      rw [List.filter_cons, if_neg (by simp [hak]), ih hnd.2 i r0 hmem hk]

/-- C8: scanning the same IP twice (both scans returning data whose
resolved IP is that IP) leaves exactly one stored row for the IP — the
second scan's snapshot, whose `hostnames` field is the second scan's
hostname list — and keeps the one-row-per-IP invariant. -/
theorem host_upsert_single_row (db : List ShodanRow) (d1 d2 : HostData)
    (now1 now2 : String) (i : String)
    (hnd : (db.map (fun r => r.ip)).Nodup)
    (h1 : getStr2 d1.ip_str d1.ip = i) (h2 : getStr2 d2.ip_str d2.ip = i)
    (hi : i ≠ "") :
    (scanTarget now2 (scanTarget now1 db (some d1)) (some d2)).filter
        (fun r => r.ip = i) = [mkHostRow now2 d2 i] ∧
      (mkHostRow now2 d2 i).hostnames = pyOrL d2.hostnames [] ∧
      ((scanTarget now2 (scanTarget now1 db (some d1)) (some d2)).map
        (fun r => r.ip)).Nodup := by
  have hdb1 : scanTarget now1 db (some d1)
      = (updateOrCreate (fun r => r.ip) i (mkHostRow now1 d1 i) db).1 := by
    simp only [scanTarget, h1]
    rw [if_neg hi]
  have hnd1 : ((scanTarget now1 db (some d1)).map (fun r => r.ip)).Nodup := by
    rw [hdb1]
    exact updateOrCreate_nodup _ _ _ _ rfl hnd
  have hdb2 : scanTarget now2 (scanTarget now1 db (some d1)) (some d2)
      = (updateOrCreate (fun r => r.ip) i (mkHostRow now2 d2 i)
          (scanTarget now1 db (some d1))).1 := by
    simp only [scanTarget, h2]
    rw [if_neg hi]
  have hnd2 : ((scanTarget now2 (scanTarget now1 db (some d1)) (some d2)).map
      (fun r => r.ip)).Nodup := by
    rw [hdb2]
    exact updateOrCreate_nodup _ _ _ _ rfl hnd1
  have hmem2 : mkHostRow now2 d2 i
      ∈ scanTarget now2 (scanTarget now1 db (some d1)) (some d2) := by
    rw [hdb2]
    exact fresh_mem_updateOrCreate _ _ _ _
  exact ⟨filter_key_eq_of_nodup (fun r => r.ip) _ hnd2 i _ hmem2 rfl, rfl, hnd2⟩

theorem host_upsert_single_row_witness :
    (scanTarget "t2" (scanTarget "t1" [] (some hostData1)) (some hostData2)).filter
        (fun r => r.ip = "8.8.8.8") = [mkHostRow "t2" hostData2 "8.8.8.8"] ∧
      (mkHostRow "t2" hostData2 "8.8.8.8").hostnames
        = pyOrL hostData2.hostnames [] ∧
      ((scanTarget "t2" (scanTarget "t1" [] (some hostData1)) (some hostData2)).map
        (fun r => r.ip)).Nodup :=
  host_upsert_single_row [] hostData1 hostData2 "t1" "t2" "8.8.8.8"
    (by decide) (by decide) (by decide) (by decide)
